import Mathlib

/-!
Shallow embedding of the personal custom format routes of arr-dashboard
(`apps/api/src/routes/personal-custom-formats.ts` and
`apps/api/src/routes/personal-custom-formats-deployment.ts`).

The Prisma store is modelled as a list of records; Prisma `findFirst`
becomes `List.find?`, `findMany` becomes `List.filter`, `update` maps over
the list replacing the matching row, and `upsert` is modelled explicitly.
Each route handler becomes a pure function from the request and current
store to a result plus the new store.  Remote HTTP calls of the ARR API
client are modelled by an oracle structure whose call results are part of
the input, and the deployment handler additionally returns the trace of
remote calls it issued.
-/

namespace ArrDash

/-- Service kind of an instance or custom format (`"RADARR" | "SONARR"`). -/
inductive ServiceType where
  | RADARR
  | SONARR
deriving DecidableEq, Repr

/-- One specification of a custom format, after zod validation
(`specificationSchema` in personal-custom-formats.ts).  The `fields`
record (`z.record(z.unknown())`) is modelled as an association list from
field keys to opaque values rendered as strings. -/
structure CustomFormatSpecification where
  name : String
  implementation : String
  negate : Bool
  required : Bool
  fields : List (String × String)
deriving DecidableEq, Repr

/-- A stored `PersonalCustomFormat` row.  `specifications` is stored as a
JSON string in Prisma and parsed on every read; since the routes only ever
store `JSON.stringify` of a validated list and parse it back, the stored
form is modelled directly as the list.  Timestamps are abstract `Nat`s. -/
structure PersonalCustomFormat where
  id : String
  userId : String
  name : String
  serviceType : ServiceType
  includeCustomFormatWhenRenaming : Bool
  specifications : List CustomFormatSpecification
  version : Nat
  createdAt : Nat
  updatedAt : Nat
  deletedAt : Option Nat
deriving DecidableEq, Repr

/-- The store of `PersonalCustomFormat` rows. -/
abbrev CFStore := List PersonalCustomFormat

/-- Body of `POST /api/personal-custom-formats` (`createPersonalCFSchema`). -/
structure CreatePersonalCFRequest where
  name : String
  serviceType : ServiceType
  includeCustomFormatWhenRenaming : Option Bool
  specifications : List CustomFormatSpecification
deriving DecidableEq, Repr

/-- zod validation of `createPersonalCFSchema`: name 1..100 chars,
at least one specification. -/
def createReqValid (r : CreatePersonalCFRequest) : Bool :=
  decide (1 ≤ r.name.length) && decide (r.name.length ≤ 100)
    && decide (1 ≤ r.specifications.length)

/-- Body of `PUT /api/personal-custom-formats/:id` (`updatePersonalCFSchema`):
every field optional, `specifications` non-empty when present. -/
structure UpdatePersonalCFRequest where
  name : Option String
  includeCustomFormatWhenRenaming : Option Bool
  specifications : Option (List CustomFormatSpecification)
deriving DecidableEq, Repr

/-- zod validation of `updatePersonalCFSchema`. -/
def updateReqValid (r : UpdatePersonalCFRequest) : Bool :=
  (match r.name with
    | none => true
    | some n => decide (1 ≤ n.length) && decide (n.length ≤ 100))
  && (match r.specifications with
    | none => true
    | some s => decide (1 ≤ s.length))

/-- Prisma `findFirst` used by the CRUD routes to resolve a record by
`(id, userId, deletedAt: null)` — the ownership guard lookup. -/
def findOwned (store : CFStore) (userId id : String) : Option PersonalCustomFormat :=
  store.find? fun cf => decide (cf.id = id ∧ cf.userId = userId ∧ cf.deletedAt = none)

/-- Prisma `findFirst` duplicate-name check used by POST and PUT:
a non-deleted row of the same user with the given name and service type. -/
def findDuplicate (store : CFStore) (userId nm : String) (k : ServiceType) :
    Option PersonalCustomFormat :=
  store.find? fun cf =>
    decide (cf.userId = userId ∧ cf.name = nm ∧ cf.serviceType = k ∧ cf.deletedAt = none)

/-- Result of `POST /api/personal-custom-formats`. -/
inductive CreateResult where
  | validationError
  | conflict (name : String)
  | created (cf : PersonalCustomFormat)
deriving DecidableEq, Repr

/-- Handler of `POST /api/personal-custom-formats`: validate, reject a
duplicate (owner, name, serviceType) among non-deleted rows with 409,
otherwise insert a fresh row with `version := 1`. -/
def postPersonalCF (store : CFStore) (userId : String) (req : CreatePersonalCFRequest)
    (newId : String) (now : Nat) : CreateResult × CFStore :=
  if !createReqValid req then (.validationError, store)
  else
    match findDuplicate store userId req.name req.serviceType with
    | some _ => (.conflict req.name, store)
    | none =>
      let cf : PersonalCustomFormat :=
        { id := newId
          userId := userId
          name := req.name
          serviceType := req.serviceType
          includeCustomFormatWhenRenaming := req.includeCustomFormatWhenRenaming.getD false
          specifications := req.specifications
          version := 1
          createdAt := now
          updatedAt := now
          deletedAt := none }
      (.created cf, store ++ [cf])

/-- Result of `PUT /api/personal-custom-formats/:id`. -/
inductive UpdateResult where
  | validationError
  | notFound
  | conflict (name : String)
  | updated (cf : PersonalCustomFormat)
deriving DecidableEq, Repr

/-- The row written by the PUT handler.  zod guarantees a present `name`
is non-empty, so the JS truthiness spreads `...(name && { name })` and
`...(specifications && { ... })` coincide with presence of the field;
`includeCustomFormatWhenRenaming` is applied on an explicit
`!== undefined` check.  `version` is `specifications ? cf.version + 1 :
cf.version` — incremented exactly when the patch carries specifications. -/
def applyUpdate (cf : PersonalCustomFormat) (req : UpdatePersonalCFRequest)
    (now : Nat) : PersonalCustomFormat :=
  { cf with
    name := req.name.getD cf.name
    includeCustomFormatWhenRenaming :=
      req.includeCustomFormatWhenRenaming.getD cf.includeCustomFormatWhenRenaming
    specifications := req.specifications.getD cf.specifications
    version := match req.specifications with
      | some _ => cf.version + 1
      | none => cf.version
    updatedAt := now }

/-- The PUT handler's duplicate-name guard: only run when the patch
carries a `name` different from the current one (`if (name && name !==
cf.name)`). -/
def putDupCheck (store : CFStore) (userId : String) (req : UpdatePersonalCFRequest)
    (cf : PersonalCustomFormat) : Bool :=
  match req.name with
  | some n =>
    if n ≠ cf.name then (findDuplicate store userId n cf.serviceType).isSome
    else false
  | none => false

/-- Handler of `PUT /api/personal-custom-formats/:id`: validate, resolve
`(id, userId, deletedAt: null)`, run the duplicate-name check only when the
name changes, then write the updated row. -/
def putPersonalCF (store : CFStore) (userId id : String)
    (req : UpdatePersonalCFRequest) (now : Nat) : UpdateResult × CFStore :=
  if !updateReqValid req then (.validationError, store)
  else
    match findOwned store userId id with
    | none => (.notFound, store)
    | some cf =>
      if putDupCheck store userId req cf then (.conflict (req.name.getD ""), store)
      else
        let cf' := applyUpdate cf req now
        (.updated cf', store.map fun c => if c.id = id then cf' else c)

/-- Result of `DELETE /api/personal-custom-formats/:id`. -/
inductive DeleteResult where
  | notFound
  | deleted (name : String)
deriving DecidableEq, Repr

/-- The soft-delete write of the DELETE route: set `deletedAt` on the row
with the given id, leave every other row alone. -/
def tombstoneRecord (rid : String) (t : Nat) (c : PersonalCustomFormat) :
    PersonalCustomFormat :=
  if c.id = rid then { c with deletedAt := some t } else c

/-- Handler of `DELETE /api/personal-custom-formats/:id`: resolve
`(id, userId, deletedAt: null)`, then soft-delete by setting `deletedAt`. -/
def deletePersonalCF (store : CFStore) (userId id : String) (now : Nat) :
    DeleteResult × CFStore :=
  match findOwned store userId id with
  | none => (.notFound, store)
  | some cf => (.deleted cf.name, store.map (tombstoneRecord id now))

/-! ## Deployment routes (`personal-custom-formats-deployment.ts`) -/

/-- A `ServiceInstance` row as used by the deployment routes. -/
structure ServiceInstance where
  id : String
  userId : String
  label : String
  service : ServiceType
deriving DecidableEq, Repr

/-- Modelled from the spec: `transformFieldsToArray` lives in
`apps/api/src/lib/trash-guides/utils.ts`, which is not under src/.  Per
§4.3 it converts the field mapping into an ordered array of entries with
the value under a `value` key, preserving key order. -/
structure RemoteField where
  name : String
  value : String
deriving DecidableEq, Repr

/-- Modelled from the spec (§4.3): object-of-fields → ordered
array-of-fields, order preserving, no mutation. -/
def transformFieldsToArray (fields : List (String × String)) : List RemoteField :=
  fields.map fun p => { name := p.1, value := p.2 }

/-- A specification in the shape the remote ARR API expects. -/
structure RemoteSpec where
  name : String
  implementation : String
  negate : Bool
  required : Bool
  fields : List RemoteField
deriving DecidableEq, Repr

/-- The per-specification transform done inline in the deploy loop:
`{ ...spec, fields: transformFieldsToArray(spec.fields) }`. -/
def toRemoteSpec (s : CustomFormatSpecification) : RemoteSpec :=
  { name := s.name
    implementation := s.implementation
    negate := s.negate
    required := s.required
    fields := transformFieldsToArray s.fields }

/-- Modelled from the spec: the remote object shape returned by
`arrClient.getCustomFormats()` (`arr-api-client.ts` is not under src/).
Per §6, `list() -> [{id, name, renameFlag, specifications}]`. -/
structure RemoteCustomFormat where
  id : Nat
  name : String
  includeCustomFormatWhenRenaming : Bool
  specifications : List RemoteSpec
deriving DecidableEq, Repr

/-- The create/update body the deploy loop sends to the remote API.  (The
source's update call spreads `...existing` first, but then overrides
exactly these fields, and the remote object's only other field, `id`, is
carried separately as the call's target id.) -/
structure RemotePayload where
  name : String
  includeCustomFormatWhenRenaming : Bool
  specifications : List RemoteSpec
deriving DecidableEq, Repr

/-- One remote HTTP call issued by the deployment handler. -/
inductive RemoteCall where
  | listCall
  | createCall (payload : RemotePayload)
  | updateCall (remoteId : Nat) (payload : RemotePayload)
deriving DecidableEq, Repr

/-- Oracle for the ARR API client: the results that `getCustomFormats`,
`createCustomFormat` and `updateCustomFormat` would produce on this
request.  `.error` models the call throwing; create/update return the
resulting remote object's id (`created.id!` / `updated.id!`). -/
structure ArrClient where
  listFormats : Except String (List RemoteCustomFormat)
  createFormat : RemotePayload → Except String Nat
  updateFormat : Nat → RemotePayload → Except String Nat

/-- A `PersonalCFDeployment` ledger row. -/
structure PersonalCFDeployment where
  id : String
  userId : String
  personalCFId : String
  instanceId : String
  instanceCFId : Nat
  deployedVersion : Nat
  deployedSpecsSnapshot : List CustomFormatSpecification
  deployedAt : Nat
deriving DecidableEq, Repr

/-- The ledger of deployment rows. -/
abbrev Ledger := List PersonalCFDeployment

/-- The `instanceId_personalCFId` unique key of the Prisma upsert. -/
def ledgerKeyMatch (d : PersonalCFDeployment) (instanceId personalCFId : String) : Bool :=
  decide (d.instanceId = instanceId ∧ d.personalCFId = personalCFId)

/-- The `update` arm of the Prisma upsert, applied to the row(s) matching
the `(instanceId, personalCFId)` key: overwrite `instanceCFId`,
`deployedVersion`, `deployedSpecsSnapshot` and `deployedAt`, leave every
other row alone. -/
def overwriteEntry (instanceId personalCFId : String) (instanceCFId deployedVersion : Nat)
    (snapshot : List CustomFormatSpecification) (now : Nat)
    (d : PersonalCFDeployment) : PersonalCFDeployment :=
  if ledgerKeyMatch d instanceId personalCFId then
    { d with
      instanceCFId := instanceCFId
      deployedVersion := deployedVersion
      deployedSpecsSnapshot := snapshot
      deployedAt := now }
  else d

/-- The Prisma `personalCFDeployment.upsert` of the deploy loop, keyed by
`(instanceId, personalCFId)`: when a row with that key exists, overwrite
its `instanceCFId`, `deployedVersion`, `deployedSpecsSnapshot` and
`deployedAt`; otherwise insert a fresh row.  (`deployedAt` on create is
the row's `@default(now())`, per §4.5 `deployedAt = now`.) -/
def ledgerUpsert (ledger : Ledger) (userId personalCFId instanceId : String)
    (instanceCFId deployedVersion : Nat) (snapshot : List CustomFormatSpecification)
    (now : Nat) (newId : String) : Ledger :=
  if ledger.any (fun d => ledgerKeyMatch d instanceId personalCFId) then
    ledger.map (overwriteEntry instanceId personalCFId instanceCFId deployedVersion
      snapshot now)
  else
    ledger ++ [{ id := newId
                 userId := userId
                 personalCFId := personalCFId
                 instanceId := instanceId
                 instanceCFId := instanceCFId
                 deployedVersion := deployedVersion
                 deployedSpecsSnapshot := snapshot
                 deployedAt := now }]

/-- `new Map(existingFormats.map((cf) => [cf.name, cf]))` followed by
`.get(name)`: a JS `Map` built from entries keeps the last entry per key,
so lookup returns the last remote object with the given name. -/
def existingByName (remote : List RemoteCustomFormat) (nm : String) :
    Option RemoteCustomFormat :=
  remote.reverse.find? fun cf => decide (cf.name = nm)

/-- The payload built for one record in the deploy loop. -/
def deployPayload (cf : PersonalCustomFormat) : RemotePayload :=
  { name := cf.name
    includeCustomFormatWhenRenaming := cf.includeCustomFormatWhenRenaming
    specifications := cf.specifications.map toRemoteSpec }

/-- The update-branch decision of the deploy loop, `if (existing?.id)`:
the remote id when the record's name is in the remote index and the
indexed object's id is truthy (nonzero), `none` otherwise. -/
def itemIsUpdate (remote : List RemoteCustomFormat) (cf : PersonalCustomFormat) :
    Option Nat :=
  match existingByName remote cf.name with
  | some ex => if ex.id ≠ 0 then some ex.id else none
  | none => none

/-- The single remote call the deploy loop issues for one record. -/
def itemCall (remote : List RemoteCustomFormat) (cf : PersonalCustomFormat) : RemoteCall :=
  match itemIsUpdate remote cf with
  | some rid => .updateCall rid (deployPayload cf)
  | none => .createCall (deployPayload cf)

/-- The result of that remote call under the client oracle. -/
def itemRemoteResult (client : ArrClient) (remote : List RemoteCustomFormat)
    (cf : PersonalCustomFormat) : Except String Nat :=
  match itemIsUpdate remote cf with
  | some rid => client.updateFormat rid (deployPayload cf)
  | none => client.createFormat (deployPayload cf)

/-- Accumulator of the deploy loop: the three result buckets, the ledger
state, and the trace of remote calls issued so far. -/
structure BatchAcc where
  created : List String
  updated : List String
  failed : List (String × String)
  ledger : Ledger
  trace : List RemoteCall
deriving Repr

/-- Fixed per-batch context of the deploy loop.  `upsertResult` is the
oracle for the Prisma ledger upsert (`none` = succeeds, `some e` = throws
`e`); `newLedgerId` supplies the ids of freshly created ledger rows. -/
structure DeployCtx where
  client : ArrClient
  upsertResult : String → Option String
  newLedgerId : String → String
  userId : String
  instanceId : String
  remote : List RemoteCustomFormat
  now : Nat

/-- One iteration of `for (const personalCF of personalCFs)`: issue the
create-or-update call; on success push the name to the matching bucket and
upsert the ledger; any throw (remote call or ledger upsert) is caught at
this item's boundary and pushed to `failed` as `{name, error}`.  Note the
name is pushed to `created`/`updated` as soon as the remote call succeeds,
before the ledger upsert is attempted. -/
def deployStep (ctx : DeployCtx) (acc : BatchAcc) (cf : PersonalCustomFormat) : BatchAcc :=
  let acc1 : BatchAcc := { acc with trace := acc.trace ++ [itemCall ctx.remote cf] }
  match itemRemoteResult ctx.client ctx.remote cf with
  | .error e => { acc1 with failed := acc1.failed ++ [(cf.name, e)] }
  | .ok instanceCFId =>
    let acc2 : BatchAcc :=
      match itemIsUpdate ctx.remote cf with
      | some _ => { acc1 with updated := acc1.updated ++ [cf.name] }
      | none => { acc1 with created := acc1.created ++ [cf.name] }
    match ctx.upsertResult cf.id with
    | some e => { acc2 with failed := acc2.failed ++ [(cf.name, e)] }
    | none =>
      { acc2 with
        ledger := ledgerUpsert acc2.ledger ctx.userId cf.id ctx.instanceId
          instanceCFId cf.version cf.specifications ctx.now (ctx.newLedgerId cf.id) }

/-- Body of `POST /deploy-multiple` (`deployMultipleSchema`). -/
structure DeployMultipleRequest where
  personalCFIds : List String
  instanceId : String
deriving DecidableEq, Repr

/-- zod validation of `deployMultipleSchema`: at least one id, non-empty
`instanceId`.  Duplicate ids are not rejected. -/
def deployReqValid (r : DeployMultipleRequest) : Bool :=
  decide (1 ≤ r.personalCFIds.length) && decide (1 ≤ r.instanceId.length)

/-- `serviceInstance.findFirst({ where: { id: instanceId, userId } })`. -/
def findInstance (instances : List ServiceInstance) (userId instanceId : String) :
    Option ServiceInstance :=
  instances.find? fun i => decide (i.id = instanceId ∧ i.userId = userId)

/-- `personalCustomFormat.findMany({ where: { id: { in: ids }, userId,
deletedAt: null } })`: every matching stored row, each row once. -/
def fetchDeployCFs (store : CFStore) (userId : String) (ids : List String) : CFStore :=
  store.filter fun cf => decide (cf.id ∈ ids ∧ cf.userId = userId ∧ cf.deletedAt = none)

/-- Aggregate result of a deployment batch (`DeployPersonalCFResponse`). -/
structure BatchResult where
  success : Bool
  created : List String
  updated : List String
  failed : List (String × String)
deriving DecidableEq, Repr

/-- Outcome of `POST /deploy-multiple`: either one top-level structured
error, or the full three-bucket batch result (sent with 200 when `failed`
is empty and 400 otherwise, but always as the full breakdown). -/
inductive DeployOutcome where
  | validationError
  | instanceNotFound
  | someCFsNotFound
  | serviceMismatch (name : String)
  | deploymentFailed (msg : String)
  | batch (result : BatchResult)
deriving DecidableEq, Repr

/-- Handler of `POST /api/personal-custom-formats/deploy-multiple`.
Returns the outcome, the ledger after the request, and the trace of
remote calls issued.  Guard order follows the source: body validation,
instance lookup by `(id, userId)`, fetch of the requested records by
`(id ∈ ids, userId, deletedAt: null)` with the count check
(`personalCFs.length !== personalCFIds.length`), then the service-kind
check on the first mismatching record — all before the single
`getCustomFormats()` list call and the per-record loop. -/
def deployMultiple (instances : List ServiceInstance) (store : CFStore)
    (ledger : Ledger) (client : ArrClient) (upsertResult : String → Option String)
    (newLedgerId : String → String) (now : Nat) (userId : String)
    (req : DeployMultipleRequest) : DeployOutcome × Ledger × List RemoteCall :=
  if !deployReqValid req then (.validationError, ledger, [])
  else
    match findInstance instances userId req.instanceId with
    | none => (.instanceNotFound, ledger, [])
    | some inst =>
      let personalCFs := fetchDeployCFs store userId req.personalCFIds
      if personalCFs.length ≠ req.personalCFIds.length then
        (.someCFsNotFound, ledger, [])
      else
        match personalCFs.find? (fun cf => decide (cf.serviceType ≠ inst.service)) with
        | some mismatch => (.serviceMismatch mismatch.name, ledger, [])
        | none =>
          match client.listFormats with
          | .error e => (.deploymentFailed e, ledger, [.listCall])
          | .ok remote =>
            let ctx : DeployCtx :=
              { client := client
                upsertResult := upsertResult
                newLedgerId := newLedgerId
                userId := userId
                instanceId := req.instanceId
                remote := remote
                now := now }
            let acc := personalCFs.foldl (deployStep ctx)
              { created := [], updated := [], failed := [], ledger := ledger,
                trace := [.listCall] }
            (.batch { success := decide (acc.failed.length = 0)
                      created := acc.created
                      updated := acc.updated
                      failed := acc.failed },
              acc.ledger, acc.trace)

/-! ## Read routes: deployments and updates -/

/-- The `where` filter of `GET /deployments` and `GET /updates`:
`{ userId }` plus the optional `instanceId` query filter. -/
def deploymentWhere (userId : String) (instFilter : Option String)
    (d : PersonalCFDeployment) : Bool :=
  decide (d.userId = userId)
    && (match instFilter with
      | some iid => decide (d.instanceId = iid)
      | none => true)

/-- A ledger row joined with its `personalCF` and `instance` relations
(Prisma `include`).  In the database the foreign keys always resolve; the
join is modelled with `find?` and drops the impossible dangling case. -/
structure JoinedDeployment where
  entry : PersonalCFDeployment
  personalCF : PersonalCustomFormat
  inst : ServiceInstance
deriving DecidableEq, Repr

/-- `findMany` with the `include` join, shared by both read routes.
(The `orderBy` of `GET /deployments` is dropped: the properties below are
membership statements, insensitive to order.) -/
def joinDeployments (ledger : Ledger) (store : CFStore)
    (instances : List ServiceInstance) (userId : String) (instFilter : Option String) :
    List JoinedDeployment :=
  (ledger.filter (deploymentWhere userId instFilter)).filterMap fun d =>
    match store.find? (fun cf => decide (cf.id = d.personalCFId)),
        instances.find? (fun i => decide (i.id = d.instanceId)) with
    | some cf, some inst => some { entry := d, personalCF := cf, inst := inst }
    | some _, none => none
    | none, _ => none

/-- One element of the `GET /deployments` response. -/
structure FormattedDeployment where
  id : String
  personalCFId : String
  personalCFName : String
  instanceId : String
  instanceLabel : String
  instanceCFId : Nat
  deployedVersion : Nat
  currentVersion : Nat
  needsUpdate : Bool
  deployedAt : Nat
deriving DecidableEq, Repr

/-- The response row of `GET /deployments` for one joined ledger entry:
`needsUpdate := d.personalCF.version > d.deployedVersion`, computed on
read from the live record, never stored on the row. -/
def formatDeployment (j : JoinedDeployment) : FormattedDeployment :=
  { id := j.entry.id
    personalCFId := j.entry.personalCFId
    personalCFName := j.personalCF.name
    instanceId := j.entry.instanceId
    instanceLabel := j.inst.label
    instanceCFId := j.entry.instanceCFId
    deployedVersion := j.entry.deployedVersion
    currentVersion := j.personalCF.version
    needsUpdate := decide (j.personalCF.version > j.entry.deployedVersion)
    deployedAt := j.entry.deployedAt }

/-- Handler of `GET /api/personal-custom-formats/deployments`. -/
def listDeployments (ledger : Ledger) (store : CFStore)
    (instances : List ServiceInstance) (userId : String) (instFilter : Option String) :
    List FormattedDeployment :=
  (joinDeployments ledger store instances userId instFilter).map formatDeployment

/-- The drift filter of `GET /updates`: the optional service-type filter
plus `d.personalCF.version > d.deployedVersion`. -/
def updatesFilter (serviceFilter : Option ServiceType) (j : JoinedDeployment) : Bool :=
  (match serviceFilter with
    | some k => decide (j.personalCF.serviceType = k)
    | none => true)
  && decide (j.personalCF.version > j.entry.deployedVersion)

/-- One element of the `GET /updates` response. -/
structure UpdateEntry where
  deploymentId : String
  personalCFId : String
  personalCFName : String
  instanceId : String
  instanceLabel : String
  serviceType : ServiceType
  deployedVersion : Nat
  currentVersion : Nat
deriving DecidableEq, Repr

/-- The response row of `GET /updates` for one joined ledger entry. -/
def formatUpdateEntry (j : JoinedDeployment) : UpdateEntry :=
  { deploymentId := j.entry.id
    personalCFId := j.entry.personalCFId
    personalCFName := j.personalCF.name
    instanceId := j.entry.instanceId
    instanceLabel := j.inst.label
    serviceType := j.personalCF.serviceType
    deployedVersion := j.entry.deployedVersion
    currentVersion := j.personalCF.version }

/-- Handler of `GET /api/personal-custom-formats/updates`: the joined
rows filtered by service type and version drift. -/
def listUpdates (ledger : Ledger) (store : CFStore)
    (instances : List ServiceInstance) (userId : String) (instFilter : Option String)
    (serviceFilter : Option ServiceType) : List UpdateEntry :=
  ((joinDeployments ledger store instances userId instFilter).filter
      (updatesFilter serviceFilter)).map formatUpdateEntry


/-- The effect of a soft delete on a joined read-route row: only the
`deletedAt` of the joined record can change. -/
def tombstoneJoined (rid : String) (t : Nat) (j : JoinedDeployment) : JoinedDeployment :=
  { j with personalCF := tombstoneRecord rid t j.personalCF }

/-! ## Per-item views of the deploy loop

Each iteration of the deploy loop handles its record independently of the
others (the remote index, client oracle and upsert oracle are fixed for
the batch).  The following definitions name the per-item outcomes so the
loop can be characterised as a `foldl` over them. -/

/-- The `{name, error}` entry an item contributes to `failed`, if any:
its remote call's error, or else its ledger upsert's error. -/
def itemFailedEntry (client : ArrClient) (remote : List RemoteCustomFormat)
    (upsertResult : String → Option String) (cf : PersonalCustomFormat) :
    Option (String × String) :=
  match itemRemoteResult client remote cf with
  | .error e => some (cf.name, e)
  | .ok _ =>
    match upsertResult cf.id with
    | some e => some (cf.name, e)
    | none => none

/-- The name an item contributes to `created`: its own name when it took
the create branch and the remote call succeeded. -/
def itemCreatedName (client : ArrClient) (remote : List RemoteCustomFormat)
    (cf : PersonalCustomFormat) : Option String :=
  match itemRemoteResult client remote cf, itemIsUpdate remote cf with
  | .ok _, none => some cf.name
  | _, _ => none

/-- The name an item contributes to `updated`: its own name when it took
the update branch and the remote call succeeded. -/
def itemUpdatedName (client : ArrClient) (remote : List RemoteCustomFormat)
    (cf : PersonalCustomFormat) : Option String :=
  match itemRemoteResult client remote cf, itemIsUpdate remote cf with
  | .ok _, some _ => some cf.name
  | _, _ => none

/-- Whether the loop writes a ledger row for this item: the remote call
succeeded and the Prisma upsert did not throw. -/
def itemLedgerWrite (client : ArrClient) (remote : List RemoteCustomFormat)
    (upsertResult : String → Option String) (cf : PersonalCustomFormat) : Bool :=
  match itemRemoteResult client remote cf, upsertResult cf.id with
  | .ok _, none => true
  | _, _ => false

/-- The ledger after one item: the upsert with the item's data when the
item reached and completed its ledger write, the unchanged ledger
otherwise. -/
def applyItemLedger (client : ArrClient) (remote : List RemoteCustomFormat)
    (upsertResult : String → Option String) (newLedgerId : String → String)
    (userId instanceId : String) (now : Nat) (L : Ledger)
    (cf : PersonalCustomFormat) : Ledger :=
  match itemRemoteResult client remote cf, upsertResult cf.id with
  | .ok instanceCFId, none =>
    ledgerUpsert L userId cf.id instanceId instanceCFId cf.version
      cf.specifications now (newLedgerId cf.id)
  | _, _ => L

/-! ## Concrete sample data, used by the witness theorems -/

/-- A sample specification. -/
def wSpec : CustomFormatSpecification :=
  { name := "s"
    implementation := "Imp"
    negate := false
    required := true
    fields := [] }

/-- A second sample specification with a field value. -/
def wSpec2 : CustomFormatSpecification := { wSpec with fields := [("v", "x")] }

/-- Sample record A, version 1, owned by user `u`. -/
def wCFA : PersonalCustomFormat :=
  { id := "a"
    userId := "u"
    name := "A"
    serviceType := .RADARR
    includeCustomFormatWhenRenaming := false
    specifications := [wSpec]
    version := 1
    createdAt := 0
    updatedAt := 0
    deletedAt := none }

/-- Sample record B at version 3. -/
def wCFB : PersonalCustomFormat := { wCFA with id := "b", name := "B", version := 3 }

/-- Sample record C. -/
def wCFC : PersonalCustomFormat := { wCFA with id := "c", name := "C" }

/-- Sample Sonarr record. -/
def wCFS : PersonalCustomFormat := { wCFA with id := "s", name := "S", serviceType := .SONARR }

/-- Sample Radarr instance owned by user `u`. -/
def wInst : ServiceInstance :=
  { id := "i1", userId := "u", label := "radarr-main", service := .RADARR }

/-- A remote custom format named `B` with id 7. -/
def wRemoteB : RemoteCustomFormat :=
  { id := 7, name := "B", includeCustomFormatWhenRenaming := false, specifications := [] }

/-- A client oracle on which every remote call succeeds. -/
def wClient : ArrClient :=
  { listFormats := .ok [wRemoteB]
    createFormat := fun _ => .ok 42
    updateFormat := fun rid _ => .ok rid }

/-- A client oracle on which every update call throws. -/
def wClientFailB : ArrClient :=
  { wClient with updateFormat := fun _ _ => .error "boom" }

/-- A sample ledger row: record `b` deployed to `i1` at version 1. -/
def wLedgerEntry : PersonalCFDeployment :=
  { id := "d1"
    userId := "u"
    personalCFId := "b"
    instanceId := "i1"
    instanceCFId := 7
    deployedVersion := 1
    deployedSpecsSnapshot := [wSpec]
    deployedAt := 10 }

/-- A PUT body that resubmits specifications (content differing from the
stored one is irrelevant to the version bump). -/
def wPatchSpecs : UpdatePersonalCFRequest :=
  { name := none, includeCustomFormatWhenRenaming := none, specifications := some [wSpec2] }

/-- A PUT body that renames and toggles the flag but omits specifications. -/
def wPatchRename : UpdatePersonalCFRequest :=
  { name := some "A2", includeCustomFormatWhenRenaming := some true, specifications := none }

/-- A create body with the same (name, serviceType) as `wCFA`. -/
def wCreateA : CreatePersonalCFRequest :=
  { name := "A"
    serviceType := .RADARR
    includeCustomFormatWhenRenaming := none
    specifications := [wSpec] }

/-! ## Theorems -/

/-- Helper: a successful PUT resolves the record and writes
`applyUpdate cf req now` over every row carrying the target id. -/
theorem putPersonalCF_updated_eq (store : CFStore) (userId id : String)
    (req : UpdatePersonalCFRequest) (now : Nat) (cf' : PersonalCustomFormat)
    (h : (putPersonalCF store userId id req now).1 = .updated cf') :
    ∃ cf, findOwned store userId id = some cf ∧ cf' = applyUpdate cf req now ∧
      putPersonalCF store userId id req now =
        (.updated cf', store.map fun c => if c.id = id then cf' else c) := by
  unfold putPersonalCF at h ⊢
  cases hv : updateReqValid req with
  | false => simp [hv] at h
  | true =>
    simp only [hv, Bool.not_true, Bool.false_eq_true, if_false] at h ⊢
    cases hf : findOwned store userId id with
    | none => simp [hf] at h
    | some cf =>
      simp only [hf] at h ⊢
      cases hd : putDupCheck store userId req cf with
      | true => simp [hd] at h
      | false =>
        simp only [hd, Bool.false_eq_true, if_false, UpdateResult.updated.injEq] at h ⊢
        exact ⟨cf, rfl, h.symm, by rw [h]⟩

/-- C1: in a successful `PUT /:id`, the stored version increments by
exactly 1 exactly when the patch carries a `specifications` field —
whatever its content, equal to the stored one or not — and is unchanged
when `specifications` is omitted, whatever the patch does to `name` or to
the rename flag; every stored row carrying the target id is the returned
record. -/
theorem putPersonalCF_version_bump (store : CFStore) (userId id : String)
    (req : UpdatePersonalCFRequest) (now : Nat) (cf' : PersonalCustomFormat)
    (h : (putPersonalCF store userId id req now).1 = .updated cf') :
    ∃ cf, findOwned store userId id = some cf ∧
      cf'.version = (if req.specifications.isSome then cf.version + 1 else cf.version) ∧
      ∀ c ∈ (putPersonalCF store userId id req now).2, c.id = id → c = cf' := by
  obtain ⟨cf, hf, hcf', heq⟩ := putPersonalCF_updated_eq store userId id req now cf' h
  refine ⟨cf, hf, ?_, ?_⟩
  · subst hcf'
    unfold applyUpdate
    cases req.specifications <;> simp
  · intro c hc hcid
    rw [heq] at hc
    simp only [List.mem_map] at hc
    obtain ⟨a, _, ha⟩ := hc
    by_cases hid : a.id = id
    · rw [if_pos hid] at ha; exact ha.symm
    · rw [if_neg hid] at ha; subst ha; exact absurd hcid hid

/-- Witness for C1: resubmitting specifications over the concrete store
`[wCFA]` bumps the stored version from 1 to 2. -/
theorem putPersonalCF_version_bump_witness :
    ∃ cf, findOwned [wCFA] "u" "a" = some cf ∧
      (applyUpdate wCFA wPatchSpecs 7).version =
        (if wPatchSpecs.specifications.isSome then cf.version + 1 else cf.version) ∧
      ∀ c ∈ (putPersonalCF [wCFA] "u" "a" wPatchSpecs 7).2, c.id = "a" →
        c = applyUpdate wCFA wPatchSpecs 7 :=
  putPersonalCF_version_bump [wCFA] "u" "a" wPatchSpecs 7
    (applyUpdate wCFA wPatchSpecs 7) (by decide)

/-- C8: creating a record whose (owner, name, serviceType) matches an
existing non-deleted row yields `Conflict` and leaves the store unchanged;
once every such row has been soft-deleted via the DELETE route, creation
with the same triple succeeds and the new row has version 1. -/
theorem postPersonalCF_uniqueness (store : CFStore) (userId : String)
    (req : CreatePersonalCFRequest) (newId rid : String) (now delNow : Nat)
    (hvalid : createReqValid req = true) :
    ((findDuplicate store userId req.name req.serviceType).isSome →
      postPersonalCF store userId req newId now = (.conflict req.name, store)) ∧
    (∀ cf0, findOwned store userId rid = some cf0 →
      (∀ cf ∈ store, cf.userId = userId → cf.name = req.name →
        cf.serviceType = req.serviceType → cf.deletedAt = none → cf.id = rid) →
      ∃ cfNew,
        postPersonalCF (deletePersonalCF store userId rid delNow).2 userId req newId now =
          (.created cfNew, (deletePersonalCF store userId rid delNow).2 ++ [cfNew]) ∧
        cfNew.version = 1) := by
  constructor
  · intro hdup
    obtain ⟨cf, hcf⟩ := Option.isSome_iff_exists.mp hdup
    unfold postPersonalCF
    rw [hvalid, hcf]
    rfl
  · intro cf0 hf0 honly
    unfold deletePersonalCF
    rw [hf0]
    have hnodup : findDuplicate (store.map (tombstoneRecord rid delNow))
        userId req.name req.serviceType = none := by
      rw [findDuplicate, List.find?_eq_none]
      intro x hx
      simp only [List.mem_map] at hx
      obtain ⟨a, ha, hax⟩ := hx
      unfold tombstoneRecord at hax
      by_cases hid : a.id = rid
      · rw [if_pos hid] at hax
        subst hax
        simp
      · rw [if_neg hid] at hax
        subst hax
        simp only [decide_eq_true_eq, not_and]
        intro hu hn hk hdel
        exact absurd (honly a ha hu hn hk hdel) hid
    unfold postPersonalCF
    rw [hvalid, hnodup]
    exact ⟨_, rfl, rfl⟩

/-- Witness for C8: creating a duplicate of `wCFA` conflicts and leaves
the store as it was; after soft-deleting `wCFA`, the same create succeeds
with version 1. -/
theorem postPersonalCF_uniqueness_witness :
    ((findDuplicate [wCFA] "u" wCreateA.name wCreateA.serviceType).isSome →
      postPersonalCF [wCFA] "u" wCreateA "n" 9 = (.conflict wCreateA.name, [wCFA])) ∧
    (∀ cf0, findOwned [wCFA] "u" "a" = some cf0 →
      (∀ cf ∈ [wCFA], cf.userId = "u" → cf.name = wCreateA.name →
        cf.serviceType = wCreateA.serviceType → cf.deletedAt = none → cf.id = "a") →
      ∃ cfNew,
        postPersonalCF (deletePersonalCF [wCFA] "u" "a" 3).2 "u" wCreateA "n" 9 =
          (.created cfNew, (deletePersonalCF [wCFA] "u" "a" 3).2 ++ [cfNew]) ∧
        cfNew.version = 1) :=
  postPersonalCF_uniqueness [wCFA] "u" wCreateA "n" "a" 9 3 (by decide)

/-- Helper: one deploy-loop iteration, expressed through the per-item
outcome functions. -/
theorem deployStep_eq (ctx : DeployCtx) (acc : BatchAcc) (cf : PersonalCustomFormat) :
    deployStep ctx acc cf =
      { created := acc.created ++ (itemCreatedName ctx.client ctx.remote cf).toList
        updated := acc.updated ++ (itemUpdatedName ctx.client ctx.remote cf).toList
        failed := acc.failed ++ (itemFailedEntry ctx.client ctx.remote ctx.upsertResult cf).toList
        ledger := applyItemLedger ctx.client ctx.remote ctx.upsertResult ctx.newLedgerId
          ctx.userId ctx.instanceId ctx.now acc.ledger cf
        trace := acc.trace ++ [itemCall ctx.remote cf] } := by
  unfold deployStep itemCreatedName itemUpdatedName itemFailedEntry applyItemLedger
  cases hres : itemRemoteResult ctx.client ctx.remote cf with
  | error e => simp
  | ok n =>
    cases hup : itemIsUpdate ctx.remote cf with
    | some rid => cases hupo : ctx.upsertResult cf.id <;> simp
    | none => cases hupo : ctx.upsertResult cf.id <;> simp

/-- Helper: the whole deploy loop is a `foldl` whose buckets, ledger and
trace are determined item by item. -/
theorem foldl_deployStep (ctx : DeployCtx) (cfs : CFStore) (acc : BatchAcc) :
    cfs.foldl (deployStep ctx) acc =
      { created := acc.created ++ cfs.filterMap (itemCreatedName ctx.client ctx.remote)
        updated := acc.updated ++ cfs.filterMap (itemUpdatedName ctx.client ctx.remote)
        failed := acc.failed ++
          cfs.filterMap (itemFailedEntry ctx.client ctx.remote ctx.upsertResult)
        ledger := cfs.foldl (applyItemLedger ctx.client ctx.remote ctx.upsertResult
          ctx.newLedgerId ctx.userId ctx.instanceId ctx.now) acc.ledger
        trace := acc.trace ++ cfs.map (itemCall ctx.remote) } := by
  induction cfs generalizing acc with
  | nil => simp
  | cons cf rest ih =>
    rw [List.foldl_cons, deployStep_eq, ih]
    simp only [List.filterMap_cons, List.map_cons, List.foldl_cons]
    cases itemCreatedName ctx.client ctx.remote cf <;>
      cases itemUpdatedName ctx.client ctx.remote cf <;>
      cases itemFailedEntry ctx.client ctx.remote ctx.upsertResult cf <;>
      simp

/-- Helper: when the body is valid, the instance resolves, the fetched
count matches, no record's service kind mismatches and the remote list
call succeeds, the deployment handler runs the loop over exactly the
fetched records and returns the three buckets, the folded ledger and the
trace headed by the single list call. -/
theorem deployMultiple_batch_eq (instances : List ServiceInstance) (store : CFStore)
    (ledger : Ledger) (client : ArrClient) (upsertResult : String → Option String)
    (newLedgerId : String → String) (now : Nat) (userId : String)
    (req : DeployMultipleRequest) (inst : ServiceInstance)
    (remote : List RemoteCustomFormat)
    (hvalid : deployReqValid req = true)
    (hinst : findInstance instances userId req.instanceId = some inst)
    (hcount : (fetchDeployCFs store userId req.personalCFIds).length =
      req.personalCFIds.length)
    (hkind : (fetchDeployCFs store userId req.personalCFIds).find?
      (fun cf => decide (cf.serviceType ≠ inst.service)) = none)
    (hlist : client.listFormats = .ok remote) :
    deployMultiple instances store ledger client upsertResult newLedgerId now userId req =
      (.batch
        { success := decide (((fetchDeployCFs store userId req.personalCFIds).filterMap
            (itemFailedEntry client remote upsertResult)).length = 0)
          created := (fetchDeployCFs store userId req.personalCFIds).filterMap
            (itemCreatedName client remote)
          updated := (fetchDeployCFs store userId req.personalCFIds).filterMap
            (itemUpdatedName client remote)
          failed := (fetchDeployCFs store userId req.personalCFIds).filterMap
            (itemFailedEntry client remote upsertResult) },
        (fetchDeployCFs store userId req.personalCFIds).foldl
          (applyItemLedger client remote upsertResult newLedgerId userId
            req.instanceId now) ledger,
        .listCall :: (fetchDeployCFs store userId req.personalCFIds).map
          (itemCall remote)) := by
  unfold deployMultiple
  rw [hvalid, hinst, hlist]
  simp only [Bool.not_true, Bool.false_eq_true, if_false, hcount, ne_eq, not_true_eq_false,
    if_false, hkind]
  rw [foldl_deployStep]
  simp

/-- C4: with a valid body, each ownership / service-kind guard failure —
instance unresolved for the caller, fewer fetched owned non-deleted
records than requested ids, or a record whose service kind differs from
the instance's — ends the whole request with that single top-level error,
an empty remote-call trace and an unchanged ledger: no item is attempted. -/
theorem deployMultiple_guard_failfast (instances : List ServiceInstance)
    (store : CFStore) (ledger : Ledger) (client : ArrClient)
    (upsertResult : String → Option String) (newLedgerId : String → String)
    (now : Nat) (userId : String) (req : DeployMultipleRequest)
    (hvalid : deployReqValid req = true) :
    (findInstance instances userId req.instanceId = none →
      deployMultiple instances store ledger client upsertResult newLedgerId now userId req =
        (.instanceNotFound, ledger, [])) ∧
    (∀ inst, findInstance instances userId req.instanceId = some inst →
      (fetchDeployCFs store userId req.personalCFIds).length < req.personalCFIds.length →
      deployMultiple instances store ledger client upsertResult newLedgerId now userId req =
        (.someCFsNotFound, ledger, [])) ∧
    (∀ inst mismatch, findInstance instances userId req.instanceId = some inst →
      (fetchDeployCFs store userId req.personalCFIds).length = req.personalCFIds.length →
      (fetchDeployCFs store userId req.personalCFIds).find?
        (fun cf => decide (cf.serviceType ≠ inst.service)) = some mismatch →
      deployMultiple instances store ledger client upsertResult newLedgerId now userId req =
        (.serviceMismatch mismatch.name, ledger, [])) := by
  refine ⟨?_, ?_, ?_⟩
  · intro hnone
    unfold deployMultiple
    rw [hvalid, hnone]
    rfl
  · intro inst hinst hlt
    unfold deployMultiple
    rw [hvalid, hinst]
    simp only [Bool.not_true, Bool.false_eq_true, if_false]
    rw [if_pos (Nat.ne_of_lt hlt)]
  · intro inst mismatch hinst hcount hmis
    unfold deployMultiple
    rw [hvalid, hinst]
    simp only [Bool.not_true, Bool.false_eq_true, if_false, hcount, ne_eq,
      not_true_eq_false, if_false, hmis]

/-- Witness for C4: unknown instance, a missing id, and a Sonarr record
against the Radarr instance each reject the concrete batch with the
corresponding top-level error, no remote call and no ledger write. -/
theorem deployMultiple_guard_failfast_witness :
    (findInstance [] "u" "i1" = none →
      deployMultiple [] [wCFA] [wLedgerEntry] wClient (fun _ => none) (fun c => c) 10 "u"
          { personalCFIds := ["a"], instanceId := "i1" } =
        (.instanceNotFound, [wLedgerEntry], [])) ∧
    (∀ inst, findInstance [wInst] "u" "i1" = some inst →
      (fetchDeployCFs [wCFA] "u" ["a", "zz"]).length < (["a", "zz"] : List String).length →
      deployMultiple [wInst] [wCFA] [wLedgerEntry] wClient (fun _ => none) (fun c => c) 10 "u"
          { personalCFIds := ["a", "zz"], instanceId := "i1" } =
        (.someCFsNotFound, [wLedgerEntry], [])) ∧
    (∀ inst mismatch, findInstance [wInst] "u" "i1" = some inst →
      (fetchDeployCFs [wCFS] "u" ["s"]).length = (["s"] : List String).length →
      (fetchDeployCFs [wCFS] "u" ["s"]).find?
        (fun cf => decide (cf.serviceType ≠ inst.service)) = some mismatch →
      deployMultiple [wInst] [wCFS] [wLedgerEntry] wClient (fun _ => none) (fun c => c) 10 "u"
          { personalCFIds := ["s"], instanceId := "i1" } =
        (.serviceMismatch mismatch.name, [wLedgerEntry], [])) :=
  ⟨(deployMultiple_guard_failfast [] [wCFA] [wLedgerEntry] wClient (fun _ => none)
      (fun c => c) 10 "u" { personalCFIds := ["a"], instanceId := "i1" } (by decide)).1,
    (deployMultiple_guard_failfast [wInst] [wCFA] [wLedgerEntry] wClient (fun _ => none)
      (fun c => c) 10 "u" { personalCFIds := ["a", "zz"], instanceId := "i1" } (by decide)).2.1,
    (deployMultiple_guard_failfast [wInst] [wCFS] [wLedgerEntry] wClient (fun _ => none)
      (fun c => c) 10 "u" { personalCFIds := ["s"], instanceId := "i1" } (by decide)).2.2⟩

/-- C2: once a batch passes the guards, the remote list is fetched exactly
once (exactly one `listCall` in the whole trace) and indexed by name; each
record whose name is a key of the index gets an `update` call carrying
that remote object's id and, on success, lands in `updated`; each record
whose name is absent gets a `create` call and, on success, lands in
`created`.  The index well-formedness hypothesis `hids` reflects that the
source takes the update branch on `existing?.id`, a truthiness test that
remote database-assigned (positive) ids always pass. -/
theorem deployMultiple_reconciliation (instances : List ServiceInstance)
    (store : CFStore) (ledger : Ledger) (client : ArrClient)
    (upsertResult : String → Option String) (newLedgerId : String → String)
    (now : Nat) (userId : String) (req : DeployMultipleRequest)
    (inst : ServiceInstance) (remote : List RemoteCustomFormat)
    (hvalid : deployReqValid req = true)
    (hinst : findInstance instances userId req.instanceId = some inst)
    (hcount : (fetchDeployCFs store userId req.personalCFIds).length =
      req.personalCFIds.length)
    (hkind : (fetchDeployCFs store userId req.personalCFIds).find?
      (fun cf => decide (cf.serviceType ≠ inst.service)) = none)
    (hlist : client.listFormats = .ok remote)
    (hids : ∀ r ∈ remote, r.id ≠ 0) :
    ((deployMultiple instances store ledger client upsertResult newLedgerId now userId
        req).2.2).count .listCall = 1 ∧
    ∀ cf ∈ fetchDeployCFs store userId req.personalCFIds,
      (∀ ex, existingByName remote cf.name = some ex →
        RemoteCall.updateCall ex.id (deployPayload cf) ∈
          (deployMultiple instances store ledger client upsertResult newLedgerId now
            userId req).2.2 ∧
        ∀ n, client.updateFormat ex.id (deployPayload cf) = .ok n →
          ∃ result, (deployMultiple instances store ledger client upsertResult
            newLedgerId now userId req).1 = .batch result ∧ cf.name ∈ result.updated) ∧
      (existingByName remote cf.name = none →
        RemoteCall.createCall (deployPayload cf) ∈
          (deployMultiple instances store ledger client upsertResult newLedgerId now
            userId req).2.2 ∧
        ∀ n, client.createFormat (deployPayload cf) = .ok n →
          ∃ result, (deployMultiple instances store ledger client upsertResult
            newLedgerId now userId req).1 = .batch result ∧ cf.name ∈ result.created) := by
  have heq := deployMultiple_batch_eq instances store ledger client upsertResult
    newLedgerId now userId req inst remote hvalid hinst hcount hkind hlist
  rw [heq]
  constructor
  · simp only [List.count_cons_self]
    have : ((fetchDeployCFs store userId req.personalCFIds).map
        (itemCall remote)).count RemoteCall.listCall = 0 := by
      rw [List.count_eq_zero]
      intro hmem
      simp only [List.mem_map] at hmem
      obtain ⟨cf, _, hcall⟩ := hmem
      unfold itemCall at hcall
      cases h2 : itemIsUpdate remote cf <;> rw [h2] at hcall <;> simp at hcall
    rw [this]
  · intro cf hcf
    constructor
    · intro ex hex
      have hexid : ex.id ≠ 0 := by
        refine hids ex ?_
        rw [← List.mem_reverse]
        exact List.mem_of_find?_eq_some hex
      have hupd : itemIsUpdate remote cf = some ex.id := by
        unfold itemIsUpdate
        rw [hex]
        simp [hexid]
      constructor
      · refine List.mem_cons_of_mem _ ?_
        refine List.mem_map.mpr ⟨cf, hcf, ?_⟩
        unfold itemCall
        rw [hupd]
      · intro n hok
        have hres : itemRemoteResult client remote cf = .ok n := by
          unfold itemRemoteResult
          rw [hupd]
          exact hok
        refine ⟨_, rfl, ?_⟩
        simp only
        refine List.mem_filterMap.mpr ⟨cf, hcf, ?_⟩
        unfold itemUpdatedName
        rw [hres, hupd]
    · intro hex
      have hupd : itemIsUpdate remote cf = none := by
        unfold itemIsUpdate
        rw [hex]
      constructor
      · refine List.mem_cons_of_mem _ ?_
        refine List.mem_map.mpr ⟨cf, hcf, ?_⟩
        unfold itemCall
        rw [hupd]
      · intro n hok
        have hres : itemRemoteResult client remote cf = .ok n := by
          unfold itemRemoteResult
          rw [hupd]
          exact hok
        refine ⟨_, rfl, ?_⟩
        simp only
        refine List.mem_filterMap.mpr ⟨cf, hcf, ?_⟩
        unfold itemCreatedName
        rw [hres, hupd]

/-- Witness for C2: deploying records `A` (absent remotely) and `B`
(present remotely with id 7) through the all-succeeding client issues one
list call, an update call with id 7 for `B`, a create call for `A`, and
buckets the names accordingly. -/
theorem deployMultiple_reconciliation_witness :
    ((deployMultiple [wInst] [wCFA, wCFB] [] wClient (fun _ => none) (fun c => c) 10 "u"
        { personalCFIds := ["a", "b"], instanceId := "i1" }).2.2).count .listCall = 1 ∧
    ∀ cf ∈ fetchDeployCFs [wCFA, wCFB] "u" ["a", "b"],
      (∀ ex, existingByName [wRemoteB] cf.name = some ex →
        RemoteCall.updateCall ex.id (deployPayload cf) ∈
          (deployMultiple [wInst] [wCFA, wCFB] [] wClient (fun _ => none) (fun c => c) 10
            "u" { personalCFIds := ["a", "b"], instanceId := "i1" }).2.2 ∧
        ∀ n, wClient.updateFormat ex.id (deployPayload cf) = .ok n →
          ∃ result, (deployMultiple [wInst] [wCFA, wCFB] [] wClient (fun _ => none)
            (fun c => c) 10 "u"
            { personalCFIds := ["a", "b"], instanceId := "i1" }).1 = .batch result ∧
            cf.name ∈ result.updated) ∧
      (existingByName [wRemoteB] cf.name = none →
        RemoteCall.createCall (deployPayload cf) ∈
          (deployMultiple [wInst] [wCFA, wCFB] [] wClient (fun _ => none) (fun c => c) 10
            "u" { personalCFIds := ["a", "b"], instanceId := "i1" }).2.2 ∧
        ∀ n, wClient.createFormat (deployPayload cf) = .ok n →
          ∃ result, (deployMultiple [wInst] [wCFA, wCFB] [] wClient (fun _ => none)
            (fun c => c) 10 "u"
            { personalCFIds := ["a", "b"], instanceId := "i1" }).1 = .batch result ∧
            cf.name ∈ result.created) :=
  deployMultiple_reconciliation [wInst] [wCFA, wCFB] [] wClient (fun _ => none)
    (fun c => c) 10 "u" { personalCFIds := ["a", "b"], instanceId := "i1" }
    wInst [wRemoteB] (by decide) (by decide) (by decide) (by decide) (by rfl)
    (by decide)

/-- C3: inside a guarded batch, each item's failure — of its remote call
or of its subsequent ledger upsert — is caught at that item's boundary and
recorded as a `{name, error}` entry in `failed`; every record still gets
its remote call attempted (the trace holds one call per record in batch
order); and the ledger is written for exactly the items with no failed
entry, a write happening only when the item's remote call succeeded. -/
theorem deployMultiple_item_isolation (instances : List ServiceInstance)
    (store : CFStore) (ledger : Ledger) (client : ArrClient)
    (upsertResult : String → Option String) (newLedgerId : String → String)
    (now : Nat) (userId : String) (req : DeployMultipleRequest)
    (inst : ServiceInstance) (remote : List RemoteCustomFormat)
    (hvalid : deployReqValid req = true)
    (hinst : findInstance instances userId req.instanceId = some inst)
    (hcount : (fetchDeployCFs store userId req.personalCFIds).length =
      req.personalCFIds.length)
    (hkind : (fetchDeployCFs store userId req.personalCFIds).find?
      (fun cf => decide (cf.serviceType ≠ inst.service)) = none)
    (hlist : client.listFormats = .ok remote) :
    ∃ result,
      (deployMultiple instances store ledger client upsertResult newLedgerId now userId
        req).1 = .batch result ∧
      result.failed = (fetchDeployCFs store userId req.personalCFIds).filterMap
        (itemFailedEntry client remote upsertResult) ∧
      (∀ cf ∈ fetchDeployCFs store userId req.personalCFIds,
        ∀ fe, itemFailedEntry client remote upsertResult cf = some fe →
          fe.1 = cf.name ∧ fe ∈ result.failed) ∧
      (deployMultiple instances store ledger client upsertResult newLedgerId now userId
        req).2.2 = .listCall ::
          (fetchDeployCFs store userId req.personalCFIds).map (itemCall remote) ∧
      (deployMultiple instances store ledger client upsertResult newLedgerId now userId
        req).2.1 = (fetchDeployCFs store userId req.personalCFIds).foldl
          (applyItemLedger client remote upsertResult newLedgerId userId
            req.instanceId now) ledger ∧
      (∀ cf ∈ fetchDeployCFs store userId req.personalCFIds,
        (itemLedgerWrite client remote upsertResult cf = true ↔
          itemFailedEntry client remote upsertResult cf = none)) ∧
      (∀ cf, itemLedgerWrite client remote upsertResult cf = true →
        ∃ n, itemRemoteResult client remote cf = .ok n) ∧
      (∀ cf L, itemLedgerWrite client remote upsertResult cf = false →
        applyItemLedger client remote upsertResult newLedgerId userId
          req.instanceId now L cf = L) := by
  have heq := deployMultiple_batch_eq instances store ledger client upsertResult
    newLedgerId now userId req inst remote hvalid hinst hcount hkind hlist
  rw [heq]
  refine ⟨_, rfl, rfl, ?_, rfl, rfl, ?_, ?_, ?_⟩
  · intro cf hcf fe hfe
    have hname : fe.1 = cf.name := by
      unfold itemFailedEntry at hfe
      cases hres : itemRemoteResult client remote cf with
      | error e => rw [hres] at hfe; injection hfe with h1; rw [← h1]
      | ok n =>
        rw [hres] at hfe
        cases hup : upsertResult cf.id with
        | some e => rw [hup] at hfe; injection hfe with h1; rw [← h1]
        | none => rw [hup] at hfe; exact absurd hfe (by simp)
    exact ⟨hname, List.mem_filterMap.mpr ⟨cf, hcf, hfe⟩⟩
  · intro cf _
    unfold itemLedgerWrite itemFailedEntry
    cases hres : itemRemoteResult client remote cf <;>
      cases hup : upsertResult cf.id <;> simp
  · intro cf hw
    unfold itemLedgerWrite at hw
    cases hres : itemRemoteResult client remote cf with
    | error e => rw [hres] at hw; simp at hw
    | ok n => exact ⟨n, rfl⟩
  · intro cf L hw
    unfold itemLedgerWrite at hw
    unfold applyItemLedger
    cases hres : itemRemoteResult client remote cf with
    | error e => rfl
    | ok n =>
      rw [hres] at hw
      cases hup : upsertResult cf.id with
      | some e => rfl
      | none => rw [hup] at hw; simp at hw

/-- C7: when a guarded batch has at least one per-item remote-call
failure, the handler still returns the full three-bucket breakdown as a
`batch` value with a non-empty `failed` list and `success = false` — not
an exception or a bare top-level error. -/
theorem deployMultiple_partial_failure_breakdown (instances : List ServiceInstance)
    (store : CFStore) (ledger : Ledger) (client : ArrClient)
    (upsertResult : String → Option String) (newLedgerId : String → String)
    (now : Nat) (userId : String) (req : DeployMultipleRequest)
    (inst : ServiceInstance) (remote : List RemoteCustomFormat)
    (hvalid : deployReqValid req = true)
    (hinst : findInstance instances userId req.instanceId = some inst)
    (hcount : (fetchDeployCFs store userId req.personalCFIds).length =
      req.personalCFIds.length)
    (hkind : (fetchDeployCFs store userId req.personalCFIds).find?
      (fun cf => decide (cf.serviceType ≠ inst.service)) = none)
    (hlist : client.listFormats = .ok remote)
    (hfail : ∃ cf ∈ fetchDeployCFs store userId req.personalCFIds,
      ∃ e, itemRemoteResult client remote cf = .error e) :
    ∃ result,
      (deployMultiple instances store ledger client upsertResult newLedgerId now userId
        req).1 = .batch result ∧
      result.failed ≠ [] ∧
      result.success = false ∧
      result.created = (fetchDeployCFs store userId req.personalCFIds).filterMap
        (itemCreatedName client remote) ∧
      result.updated = (fetchDeployCFs store userId req.personalCFIds).filterMap
        (itemUpdatedName client remote) ∧
      result.failed = (fetchDeployCFs store userId req.personalCFIds).filterMap
        (itemFailedEntry client remote upsertResult) := by
  have heq := deployMultiple_batch_eq instances store ledger client upsertResult
    newLedgerId now userId req inst remote hvalid hinst hcount hkind hlist
  rw [heq]
  obtain ⟨cf, hcf, e, herr⟩ := hfail
  have hmem : (cf.name, e) ∈ (fetchDeployCFs store userId req.personalCFIds).filterMap
      (itemFailedEntry client remote upsertResult) := by
    refine List.mem_filterMap.mpr ⟨cf, hcf, ?_⟩
    unfold itemFailedEntry
    rw [herr]
  have hne : (fetchDeployCFs store userId req.personalCFIds).filterMap
      (itemFailedEntry client remote upsertResult) ≠ [] :=
    List.ne_nil_of_mem hmem
  refine ⟨_, rfl, hne, ?_, rfl, rfl, rfl⟩
  simp only [decide_eq_false_iff_not]
  exact fun h => hne (List.eq_nil_of_length_eq_zero h)

/-- Witness for C3: with the middle record's update call throwing `boom`,
the concrete batch still attempts all three records, records exactly
`("B", "boom")` in `failed`, and writes the ledger exactly for the two
non-failed items. -/
theorem deployMultiple_item_isolation_witness :
    ∃ result,
      (deployMultiple [wInst] [wCFA, wCFB, wCFC] [] wClientFailB (fun _ => none)
        (fun c => c) 10 "u" { personalCFIds := ["a", "b", "c"], instanceId := "i1" }).1 =
        .batch result ∧
      result.failed = (fetchDeployCFs [wCFA, wCFB, wCFC] "u" ["a", "b", "c"]).filterMap
        (itemFailedEntry wClientFailB [wRemoteB] (fun _ => none)) ∧
      (∀ cf ∈ fetchDeployCFs [wCFA, wCFB, wCFC] "u" ["a", "b", "c"],
        ∀ fe, itemFailedEntry wClientFailB [wRemoteB] (fun _ => none) cf = some fe →
          fe.1 = cf.name ∧ fe ∈ result.failed) ∧
      (deployMultiple [wInst] [wCFA, wCFB, wCFC] [] wClientFailB (fun _ => none)
        (fun c => c) 10 "u" { personalCFIds := ["a", "b", "c"], instanceId := "i1" }).2.2 =
        .listCall :: (fetchDeployCFs [wCFA, wCFB, wCFC] "u" ["a", "b", "c"]).map
          (itemCall [wRemoteB]) ∧
      (deployMultiple [wInst] [wCFA, wCFB, wCFC] [] wClientFailB (fun _ => none)
        (fun c => c) 10 "u" { personalCFIds := ["a", "b", "c"], instanceId := "i1" }).2.1 =
        (fetchDeployCFs [wCFA, wCFB, wCFC] "u" ["a", "b", "c"]).foldl
          (applyItemLedger wClientFailB [wRemoteB] (fun _ => none) (fun c => c) "u"
            "i1" 10) [] ∧
      (∀ cf ∈ fetchDeployCFs [wCFA, wCFB, wCFC] "u" ["a", "b", "c"],
        (itemLedgerWrite wClientFailB [wRemoteB] (fun _ => none) cf = true ↔
          itemFailedEntry wClientFailB [wRemoteB] (fun _ => none) cf = none)) ∧
      (∀ cf, itemLedgerWrite wClientFailB [wRemoteB] (fun _ => none) cf = true →
        ∃ n, itemRemoteResult wClientFailB [wRemoteB] cf = .ok n) ∧
      (∀ cf L, itemLedgerWrite wClientFailB [wRemoteB] (fun _ => none) cf = false →
        applyItemLedger wClientFailB [wRemoteB] (fun _ => none) (fun c => c) "u"
          "i1" 10 L cf = L) :=
  deployMultiple_item_isolation [wInst] [wCFA, wCFB, wCFC] [] wClientFailB
    (fun _ => none) (fun c => c) 10 "u"
    { personalCFIds := ["a", "b", "c"], instanceId := "i1" } wInst [wRemoteB]
    (by decide) (by decide) (by decide) (by decide) (by rfl)

/-- Witness for C7: the same partially failing batch returns a `batch`
value whose `failed` list is non-empty and whose `success` flag is false,
with the full breakdown present. -/
theorem deployMultiple_partial_failure_breakdown_witness :
    ∃ result,
      (deployMultiple [wInst] [wCFB] [] wClientFailB (fun _ => none)
        (fun c => c) 10 "u" { personalCFIds := ["b"], instanceId := "i1" }).1 =
        .batch result ∧
      result.failed ≠ [] ∧
      result.success = false ∧
      result.created = (fetchDeployCFs [wCFB] "u" ["b"]).filterMap
        (itemCreatedName wClientFailB [wRemoteB]) ∧
      result.updated = (fetchDeployCFs [wCFB] "u" ["b"]).filterMap
        (itemUpdatedName wClientFailB [wRemoteB]) ∧
      result.failed = (fetchDeployCFs [wCFB] "u" ["b"]).filterMap
        (itemFailedEntry wClientFailB [wRemoteB] (fun _ => none)) :=
  deployMultiple_partial_failure_breakdown [wInst] [wCFB] [] wClientFailB
    (fun _ => none) (fun c => c) 10 "u"
    { personalCFIds := ["b"], instanceId := "i1" } wInst [wRemoteB]
    (by decide) (by decide) (by decide) (by decide) (by rfl)
    ⟨wCFB, by decide, "boom", by rfl⟩

/-- Helper: the upsert's overwrite never changes a row's
`(instanceId, personalCFId)` key. -/
theorem ledgerKeyMatch_overwriteEntry (iid cfId k1 k2 : String) (rid ver : Nat)
    (snap : List CustomFormatSpecification) (now : Nat) (d : PersonalCFDeployment) :
    ledgerKeyMatch (overwriteEntry iid cfId rid ver snap now d) k1 k2 =
      ledgerKeyMatch d k1 k2 := by
  unfold overwriteEntry
  by_cases h : ledgerKeyMatch d iid cfId = true
  · rw [if_pos h]
    unfold ledgerKeyMatch
    rfl
  · rw [if_neg h]

/-- Helper: filtering any key through the overwrite map commutes with
filtering the original ledger. -/
theorem filter_key_map_overwrite (ledger : Ledger) (iid cfId k1 k2 : String)
    (rid ver : Nat) (snap : List CustomFormatSpecification) (now : Nat) :
    (ledger.map (overwriteEntry iid cfId rid ver snap now)).filter
      (fun d => ledgerKeyMatch d k1 k2) =
    (ledger.filter (fun d => ledgerKeyMatch d k1 k2)).map
      (overwriteEntry iid cfId rid ver snap now) := by
  rw [List.filter_map]
  congr 1
  refine List.filter_congr ?_
  intro a _
  exact ledgerKeyMatch_overwriteEntry iid cfId k1 k2 rid ver snap now a

/-- C5: recording a deployment is an upsert keyed by
`(instanceId, personalCFId)`.  On a ledger holding at most one row for
that key, the upsert leaves exactly one row for the key, that row carries
the just-deployed `instanceCFId`, `deployedVersion` (the record's version
at this deployment), `deployedSpecsSnapshot` and `deployedAt`, every row
not matching the key is an untouched pre-existing row, and the
at-most-one-per-pair invariant is preserved for every key — re-deployment
overwrites, it never appends a second row for the pair. -/
theorem ledgerUpsert_semantics (ledger : Ledger) (userId cfId iid : String)
    (rid ver : Nat) (snap : List CustomFormatSpecification) (now : Nat) (newId : String)
    (hinv : (ledger.filter fun d => ledgerKeyMatch d iid cfId).length ≤ 1) :
    ((ledgerUpsert ledger userId cfId iid rid ver snap now newId).filter
      fun d => ledgerKeyMatch d iid cfId).length = 1 ∧
    (∀ d ∈ ledgerUpsert ledger userId cfId iid rid ver snap now newId,
      ledgerKeyMatch d iid cfId = true →
        d.instanceCFId = rid ∧ d.deployedVersion = ver ∧
        d.deployedSpecsSnapshot = snap ∧ d.deployedAt = now) ∧
    (∀ d ∈ ledgerUpsert ledger userId cfId iid rid ver snap now newId,
      ledgerKeyMatch d iid cfId = false → d ∈ ledger) ∧
    (∀ iid2 cfId2, (ledger.filter fun d => ledgerKeyMatch d iid2 cfId2).length ≤ 1 →
      ((ledgerUpsert ledger userId cfId iid rid ver snap now newId).filter
        fun d => ledgerKeyMatch d iid2 cfId2).length ≤ 1) := by
  cases hany : ledger.any (fun d => ledgerKeyMatch d iid cfId) with
  | true =>
    have hL : ledgerUpsert ledger userId cfId iid rid ver snap now newId =
        ledger.map (overwriteEntry iid cfId rid ver snap now) := by
      unfold ledgerUpsert
      rw [hany]
      rfl
    obtain ⟨x, hx, hkx⟩ := List.any_eq_true.mp hany
    have hpos : 0 < (ledger.filter fun d => ledgerKeyMatch d iid cfId).length :=
      List.length_pos.mpr (List.ne_nil_of_mem (List.mem_filter.mpr ⟨hx, hkx⟩))
    refine ⟨?_, ?_, ?_, ?_⟩
    · rw [hL, filter_key_map_overwrite, List.length_map]
      omega
    · intro d hd hkey
      rw [hL] at hd
      obtain ⟨a, _, ha⟩ := List.mem_map.mp hd
      by_cases hka : ledgerKeyMatch a iid cfId = true
      · rw [← ha]
        unfold overwriteEntry
        rw [if_pos hka]
        exact ⟨rfl, rfl, rfl, rfl⟩
      · exfalso
        apply hka
        rw [← ledgerKeyMatch_overwriteEntry iid cfId iid cfId rid ver snap now a, ha, hkey]
    · intro d hd hkey
      rw [hL] at hd
      obtain ⟨a, haMem, ha⟩ := List.mem_map.mp hd
      have hka : ledgerKeyMatch a iid cfId = false := by
        rw [← ledgerKeyMatch_overwriteEntry iid cfId iid cfId rid ver snap now a, ha, hkey]
      have : overwriteEntry iid cfId rid ver snap now a = a := by
        unfold overwriteEntry
        rw [hka]
        rfl
      rw [← ha, this]
      exact haMem
    · intro iid2 cfId2 h2
      rw [hL, filter_key_map_overwrite, List.length_map]
      exact h2
  | false =>
    have hnone : ∀ x ∈ ledger, ¬ ledgerKeyMatch x iid cfId = true :=
      List.any_eq_false.mp hany
    have hL : ledgerUpsert ledger userId cfId iid rid ver snap now newId =
        ledger ++ [{ id := newId
                     userId := userId
                     personalCFId := cfId
                     instanceId := iid
                     instanceCFId := rid
                     deployedVersion := ver
                     deployedSpecsSnapshot := snap
                     deployedAt := now }] := by
      unfold ledgerUpsert
      rw [hany]
      rfl
    have hkeynew : ledgerKeyMatch
        { id := newId, userId := userId, personalCFId := cfId, instanceId := iid,
          instanceCFId := rid, deployedVersion := ver, deployedSpecsSnapshot := snap,
          deployedAt := now } iid cfId = true := by
      unfold ledgerKeyMatch
      simp
    refine ⟨?_, ?_, ?_, ?_⟩
    · rw [hL, List.filter_append, List.filter_eq_nil_iff.mpr hnone]
      simp [hkeynew]
    · intro d hd hkey
      rw [hL] at hd
      rcases List.mem_append.mp hd with hmem | hmem
      · exact absurd hkey (hnone d hmem)
      · rw [List.mem_singleton.mp hmem]
        exact ⟨rfl, rfl, rfl, rfl⟩
    · intro d hd hkey
      rw [hL] at hd
      rcases List.mem_append.mp hd with hmem | hmem
      · exact hmem
      · rw [List.mem_singleton.mp hmem] at hkey
        rw [hkeynew] at hkey
        exact absurd hkey (by simp)
    · intro iid2 cfId2 h2
      rw [hL, List.filter_append]
      by_cases hk2 : ledgerKeyMatch
          { id := newId, userId := userId, personalCFId := cfId, instanceId := iid,
            instanceCFId := rid, deployedVersion := ver, deployedSpecsSnapshot := snap,
            deployedAt := now } iid2 cfId2 = true
      · have hkk : iid = iid2 ∧ cfId = cfId2 := by
          unfold ledgerKeyMatch at hk2
          simpa using hk2
        obtain ⟨h1, h2'⟩ := hkk
        subst h1
        subst h2'
        rw [List.filter_eq_nil_iff.mpr hnone]
        simp [hk2]
      · have : List.filter (fun d => ledgerKeyMatch d iid2 cfId2)
            [({ id := newId, userId := userId, personalCFId := cfId, instanceId := iid,
                instanceCFId := rid, deployedVersion := ver, deployedSpecsSnapshot := snap,
                deployedAt := now } : PersonalCFDeployment)] = [] := by
          simp only [List.filter, hk2]
        rw [this]
        simpa using h2

/-- Witness for C5: re-deploying record `b` to instance `i1` over a
ledger already holding one row for that pair keeps exactly one row for
the pair, now carrying the new version, snapshot, timestamp and remote
id. -/
theorem ledgerUpsert_semantics_witness :
    (((ledgerUpsert [wLedgerEntry] "u" "b" "i1" 9 3 [wSpec2] 20 "dX").filter
      fun d => ledgerKeyMatch d "i1" "b").length = 1) ∧
    (∀ d ∈ ledgerUpsert [wLedgerEntry] "u" "b" "i1" 9 3 [wSpec2] 20 "dX",
      ledgerKeyMatch d "i1" "b" = true →
        d.instanceCFId = 9 ∧ d.deployedVersion = 3 ∧
        d.deployedSpecsSnapshot = [wSpec2] ∧ d.deployedAt = 20) ∧
    (∀ d ∈ ledgerUpsert [wLedgerEntry] "u" "b" "i1" 9 3 [wSpec2] 20 "dX",
      ledgerKeyMatch d "i1" "b" = false → d ∈ [wLedgerEntry]) ∧
    (∀ iid2 cfId2,
      (([wLedgerEntry] : Ledger).filter fun d => ledgerKeyMatch d iid2 cfId2).length ≤ 1 →
      ((ledgerUpsert [wLedgerEntry] "u" "b" "i1" 9 3 [wSpec2] 20 "dX").filter
        fun d => ledgerKeyMatch d iid2 cfId2).length ≤ 1) :=
  ledgerUpsert_semantics [wLedgerEntry] "u" "b" "i1" 9 3 [wSpec2] 20 "dX" (by decide)

/-- Helper: membership in the joined `findMany` of the read routes. -/
theorem mem_joinDeployments (ledger : Ledger) (store : CFStore)
    (instances : List ServiceInstance) (userId : String) (instFilter : Option String)
    (j : JoinedDeployment) :
    j ∈ joinDeployments ledger store instances userId instFilter ↔
      j.entry ∈ ledger ∧ deploymentWhere userId instFilter j.entry = true ∧
      store.find? (fun cf => decide (cf.id = j.entry.personalCFId)) = some j.personalCF ∧
      instances.find? (fun i => decide (i.id = j.entry.instanceId)) = some j.inst := by
  unfold joinDeployments
  rw [List.mem_filterMap]
  constructor
  · rintro ⟨d, hd, heq⟩
    have hdm := List.mem_filter.mp hd
    cases hcf : store.find? (fun cf => decide (cf.id = d.personalCFId)) with
    | none => rw [hcf] at heq; simp at heq
    | some cf =>
      rw [hcf] at heq
      cases hin : instances.find? (fun i => decide (i.id = d.instanceId)) with
      | none => rw [hin] at heq; simp at heq
      | some inst =>
        rw [hin] at heq
        simp only [Option.some.injEq] at heq
        subst heq
        exact ⟨hdm.1, hdm.2, hcf, hin⟩
  · rintro ⟨h1, h2, h3, h4⟩
    refine ⟨j.entry, List.mem_filter.mpr ⟨h1, h2⟩, ?_⟩
    rw [h3, h4]

/-- C6: every row of `GET /deployments` carries the ledger row's stored
`deployedVersion`, the live record's `version` (resolved from the store
at read time), and a `needsUpdate` flag that is true exactly when the
live version exceeds the deployed one; numerically, a row whose record is
still at its deployed version reports false and a row whose record was
bumped by one reports true; and `GET /updates` (no service filter)
returns exactly the joined rows for which that comparison holds. -/
theorem drift_computed_on_read (ledger : Ledger) (store : CFStore)
    (instances : List ServiceInstance) (userId : String) (instFilter : Option String) :
    (∀ f ∈ listDeployments ledger store instances userId instFilter,
      ∃ d ∈ ledger, ∃ cf,
        store.find? (fun c => decide (c.id = d.personalCFId)) = some cf ∧
        f.id = d.id ∧ f.deployedVersion = d.deployedVersion ∧
        f.currentVersion = cf.version ∧
        (f.needsUpdate = true ↔ cf.version > d.deployedVersion)) ∧
    (∀ f ∈ listDeployments ledger store instances userId instFilter,
      (f.currentVersion = f.deployedVersion → f.needsUpdate = false) ∧
      (f.currentVersion = f.deployedVersion + 1 → f.needsUpdate = true)) ∧
    (∀ u, u ∈ listUpdates ledger store instances userId instFilter none ↔
      ∃ j ∈ joinDeployments ledger store instances userId instFilter,
        j.personalCF.version > j.entry.deployedVersion ∧ u = formatUpdateEntry j) := by
  refine ⟨?_, ?_, ?_⟩
  · intro f hf
    unfold listDeployments at hf
    obtain ⟨j, hj, rfl⟩ := List.mem_map.mp hf
    obtain ⟨h1, _, h3, _⟩ :=
      (mem_joinDeployments ledger store instances userId instFilter j).mp hj
    refine ⟨j.entry, h1, j.personalCF, h3, rfl, rfl, rfl, ?_⟩
    unfold formatDeployment
    simp
  · intro f hf
    unfold listDeployments at hf
    obtain ⟨j, _, rfl⟩ := List.mem_map.mp hf
    unfold formatDeployment
    constructor
    · intro h
      simp only at h ⊢
      rw [h]
      simp
    · intro h
      simp only at h ⊢
      rw [h]
      simp
  · intro u
    unfold listUpdates
    rw [List.mem_map]
    constructor
    · rintro ⟨j, hj, rfl⟩
      have hm := List.mem_filter.mp hj
      refine ⟨j, hm.1, ?_, rfl⟩
      have hfil := hm.2
      unfold updatesFilter at hfil
      simpa using hfil
    · rintro ⟨j, hj, hdrift, rfl⟩
      refine ⟨j, List.mem_filter.mpr ⟨hj, ?_⟩, rfl⟩
      unfold updatesFilter
      simpa using hdrift

/-- Witness for C6: on the concrete ledger where record `b` (live version
3) was deployed at version 1, the deployments view reports drift from the
live store row and the updates view returns exactly the drifted rows. -/
theorem drift_computed_on_read_witness :
    (∀ f ∈ listDeployments [wLedgerEntry] [wCFB] [wInst] "u" none,
      ∃ d ∈ [wLedgerEntry], ∃ cf,
        ([wCFB] : CFStore).find? (fun c => decide (c.id = d.personalCFId)) = some cf ∧
        f.id = d.id ∧ f.deployedVersion = d.deployedVersion ∧
        f.currentVersion = cf.version ∧
        (f.needsUpdate = true ↔ cf.version > d.deployedVersion)) ∧
    (∀ f ∈ listDeployments [wLedgerEntry] [wCFB] [wInst] "u" none,
      (f.currentVersion = f.deployedVersion → f.needsUpdate = false) ∧
      (f.currentVersion = f.deployedVersion + 1 → f.needsUpdate = true)) ∧
    (∀ u, u ∈ listUpdates [wLedgerEntry] [wCFB] [wInst] "u" none none ↔
      ∃ j ∈ joinDeployments [wLedgerEntry] [wCFB] [wInst] "u" none,
        j.personalCF.version > j.entry.deployedVersion ∧ u = formatUpdateEntry j) :=
  drift_computed_on_read [wLedgerEntry] [wCFB] [wInst] "u" none

/-- C9: the request schema accepts duplicate ids, and when
`personalCFIds` repeats an id the `findMany` fetch returns each stored
row once, so the fetched count is strictly below the requested count and
the whole batch is rejected with the records-not-found error — even when
every requested id names a valid, owned, non-deleted record.  The
`hstore` hypothesis is the store's primary-key uniqueness. -/
theorem deployMultiple_duplicate_ids_rejected (instances : List ServiceInstance)
    (store : CFStore) (ledger : Ledger) (client : ArrClient)
    (upsertResult : String → Option String) (newLedgerId : String → String)
    (now : Nat) (userId : String) (req : DeployMultipleRequest) (inst : ServiceInstance)
    (hstore : (store.map (fun cf => cf.id)).Nodup)
    (hdup : ¬ req.personalCFIds.Nodup)
    (hiid : 1 ≤ req.instanceId.length)
    (hinst : findInstance instances userId req.instanceId = some inst)
    (hvalidids : ∀ i ∈ req.personalCFIds, ∃ cf ∈ store,
      cf.id = i ∧ cf.userId = userId ∧ cf.deletedAt = none) :
    deployReqValid req = true ∧
    (fetchDeployCFs store userId req.personalCFIds).length <
      req.personalCFIds.length ∧
    deployMultiple instances store ledger client upsertResult newLedgerId now userId req =
      (.someCFsNotFound, ledger, []) := by
  have hlen1 : 1 ≤ req.personalCFIds.length := by
    cases hids : req.personalCFIds with
    | nil => exact absurd (by rw [hids]; exact List.nodup_nil) hdup
    | cons a rest => simp [hids]
  have hvalid : deployReqValid req = true := by
    unfold deployReqValid
    rw [decide_eq_true hlen1, decide_eq_true hiid]
    rfl
  have hlt : (fetchDeployCFs store userId req.personalCFIds).length <
      req.personalCFIds.length := by
    have hnd : ((fetchDeployCFs store userId req.personalCFIds).map
        (fun cf => cf.id)).Nodup := by
      unfold fetchDeployCFs
      exact hstore.sublist ((store.filter_sublist).map (fun cf => cf.id))
    have hsub : ((fetchDeployCFs store userId req.personalCFIds).map
        (fun cf => cf.id)) ⊆ req.personalCFIds := by
      intro x hx
      obtain ⟨cf, hcf, rfl⟩ := List.mem_map.mp hx
      unfold fetchDeployCFs at hcf
      have := (List.mem_filter.mp hcf).2
      simp only [decide_eq_true_eq] at this
      exact this.1
    have hfsub : ((fetchDeployCFs store userId req.personalCFIds).map
        (fun cf => cf.id)).toFinset ⊆ req.personalCFIds.toFinset := by
      intro x hx
      rw [List.mem_toFinset] at hx ⊢
      exact hsub hx
    have hdlt : req.personalCFIds.dedup.length < req.personalCFIds.length := by
      rcases Nat.lt_or_ge req.personalCFIds.dedup.length req.personalCFIds.length
        with h1 | h1
      · exact h1
      · exfalso
        have hle := (List.dedup_sublist req.personalCFIds).length_le
        have heq : req.personalCFIds.dedup.length = req.personalCFIds.length :=
          le_antisymm hle h1
        have hde := (List.dedup_sublist req.personalCFIds).eq_of_length heq
        exact hdup (hde ▸ req.personalCFIds.nodup_dedup)
    calc (fetchDeployCFs store userId req.personalCFIds).length
        = ((fetchDeployCFs store userId req.personalCFIds).map
            (fun cf => cf.id)).length := (List.length_map _ _).symm
      _ = ((fetchDeployCFs store userId req.personalCFIds).map
            (fun cf => cf.id)).toFinset.card := (List.toFinset_card_of_nodup hnd).symm
      _ ≤ req.personalCFIds.toFinset.card := Finset.card_le_card hfsub
      _ = req.personalCFIds.dedup.length := rfl
      _ < req.personalCFIds.length := hdlt
  refine ⟨hvalid, hlt, ?_⟩
  unfold deployMultiple
  rw [hvalid, hinst]
  simp only [Bool.not_true, Bool.false_eq_true, if_false]
  rw [if_pos (Nat.ne_of_lt hlt)]

/-- Witness for C9: requesting `["a", "a"]` against a store where `a` is
a valid owned record still fails the whole batch with the
records-not-found error, while the body passes validation. -/
theorem deployMultiple_duplicate_ids_rejected_witness :
    deployReqValid { personalCFIds := ["a", "a"], instanceId := "i1" } = true ∧
    (fetchDeployCFs [wCFA] "u" ["a", "a"]).length < (["a", "a"] : List String).length ∧
    deployMultiple [wInst] [wCFA] [wLedgerEntry] wClient (fun _ => none) (fun c => c)
      10 "u" { personalCFIds := ["a", "a"], instanceId := "i1" } =
      (.someCFsNotFound, [wLedgerEntry], []) :=
  deployMultiple_duplicate_ids_rejected [wInst] [wCFA] [wLedgerEntry] wClient
    (fun _ => none) (fun c => c) 10 "u"
    { personalCFIds := ["a", "a"], instanceId := "i1" } wInst
    (by decide) (by decide) (by decide) (by decide) (by decide)

/-- Helper: the read routes' record lookup, run over a soft-deleted
store, finds the tombstoned version of the same row. -/
theorem find?_tombstone (store : CFStore) (rid : String) (t : Nat) (x : String) :
    (store.map (tombstoneRecord rid t)).find? (fun cf => decide (cf.id = x)) =
      (store.find? (fun cf => decide (cf.id = x))).map (tombstoneRecord rid t) := by
  rw [List.find?_map]
  have hp : ((fun cf => decide (cf.id = x)) ∘ tombstoneRecord rid t) =
      (fun cf : PersonalCustomFormat => decide (cf.id = x)) := by
    funext c
    unfold tombstoneRecord
    by_cases h : c.id = rid
    · simp [Function.comp, h]
    · simp [Function.comp, h]
  rw [hp]

/-- Helper: joining the read routes over a soft-deleted store tombstones
each joined row's record and changes nothing else. -/
theorem joinDeployments_tombstone (ledger : Ledger) (store : CFStore)
    (instances : List ServiceInstance) (userId : String) (instFilter : Option String)
    (rid : String) (t : Nat) :
    joinDeployments ledger (store.map (tombstoneRecord rid t)) instances userId
      instFilter =
    (joinDeployments ledger store instances userId instFilter).map
      (tombstoneJoined rid t) := by
  unfold joinDeployments
  rw [List.map_filterMap]
  refine List.filterMap_congr ?_
  intro d _
  rw [find?_tombstone]
  cases store.find? (fun cf => decide (cf.id = d.personalCFId)) with
  | none => rfl
  | some cf =>
    cases instances.find? (fun i => decide (i.id = d.instanceId)) with
    | none => rfl
    | some inst => rfl

/-- C10: the deployments and updates read routes do not exclude ledger
rows whose record was soft-deleted — running either route after the
DELETE route's tombstone write returns exactly what it returned before,
entry for entry, so a tombstoned record's deployments are still listed
and its version drift is still computed by the same comparison. -/
theorem reads_ignore_soft_delete (ledger : Ledger) (store : CFStore)
    (instances : List ServiceInstance) (userId : String) (instFilter : Option String)
    (serviceFilter : Option ServiceType) (rid : String) (now : Nat) :
    listDeployments ledger (deletePersonalCF store userId rid now).2 instances userId
      instFilter = listDeployments ledger store instances userId instFilter ∧
    listUpdates ledger (deletePersonalCF store userId rid now).2 instances userId
      instFilter serviceFilter =
      listUpdates ledger store instances userId instFilter serviceFilter := by
  unfold deletePersonalCF
  cases hf : findOwned store userId rid with
  | none => exact ⟨rfl, rfl⟩
  | some cf =>
    simp only
    constructor
    · unfold listDeployments
      rw [joinDeployments_tombstone, List.map_map]
      refine List.map_congr_left ?_
      intro j _
      show formatDeployment (tombstoneJoined rid now j) = formatDeployment j
      unfold formatDeployment tombstoneJoined tombstoneRecord
      by_cases h : j.personalCF.id = rid
      · simp [h]
      · simp [h]
    · unfold listUpdates
      rw [joinDeployments_tombstone, List.filter_map]
      have hp : (updatesFilter serviceFilter ∘ tombstoneJoined rid now) =
          updatesFilter serviceFilter := by
        funext j
        unfold updatesFilter tombstoneJoined tombstoneRecord
        by_cases h : j.personalCF.id = rid
        · simp [h]
        · simp [h]
      rw [hp, List.map_map]
      refine List.map_congr_left ?_
      intro j _
      show formatUpdateEntry (tombstoneJoined rid now j) = formatUpdateEntry j
      unfold formatUpdateEntry tombstoneJoined tombstoneRecord
      by_cases h : j.personalCF.id = rid
      · simp [h]
      · simp [h]

/-- Witness for C10: after soft-deleting record `b`, its ledger row is
still listed by the updates route (its drift 3 > 1 still reported), and
both read routes return exactly their pre-delete output. -/
theorem reads_ignore_soft_delete_witness :
    (listDeployments [wLedgerEntry] (deletePersonalCF [wCFB] "u" "b" 4).2 [wInst] "u"
        none = listDeployments [wLedgerEntry] [wCFB] [wInst] "u" none ∧
      listUpdates [wLedgerEntry] (deletePersonalCF [wCFB] "u" "b" 4).2 [wInst] "u"
        none none = listUpdates [wLedgerEntry] [wCFB] [wInst] "u" none none) ∧
    listUpdates [wLedgerEntry] (deletePersonalCF [wCFB] "u" "b" 4).2 [wInst] "u"
      none none ≠ [] :=
  ⟨reads_ignore_soft_delete [wLedgerEntry] [wCFB] [wInst] "u" none none "b" 4,
    by decide⟩
